import Mathlib

/-!
Verification development for the Solana Pay utility of this repository
(file src/py_solana_pay/solana_integration.py, class SolanaPayUtil).

The embedding models:
  - base58 parsing of addresses and signatures, as performed by the
    Pubkey.from_string / Signature.from_string calls the utility makes:
    a string is decoded over the 58-character alphabet to the byte string
    it denotes, and accepted exactly when that byte string has the exact
    length (32 bytes for a public key, 64 for a signature);
  - generate_payment_url: recipient validation, the parameter dictionary
    built in insertion order, percent-encoding of keys and values as in
    urllib.parse.urlencode (quote_plus: space to plus, the unreserved
    characters kept, every other character percent-encoded byte by byte
    over its UTF-8 encoding, uppercase hex), and the final
    solana:<recipient>[?<query>] string;
  - verify_transaction: the RPC client call is modelled as an environment
    value describing what client.get_transaction would do (return a
    response value, or raise), the amount of the signature-parse exception
    text as an environment string, and the function returns the result
    dictionary together with the number of get_transaction invocations;
  - get_account_balance: same environment style for client.get_balance,
    lamports-to-SOL conversion carried out over the rationals.

The Python float amount of generate_payment_url is abstracted by the pair
of the two observations the code makes of it: the truth value of the
comparison amount > 0, and the string rendering str(amount).
-/

set_option maxRecDepth 8192

namespace SolanaPay

/-- Alphabet of the base58 encoding used for Solana addresses and
transaction signatures (digits and letters without 0, O, I, l). -/
def base58Chars : List Char :=
  ['1', '2', '3', '4', '5', '6', '7', '8', '9',
   'A', 'B', 'C', 'D', 'E', 'F', 'G', 'H', 'J', 'K', 'L', 'M', 'N',
   'P', 'Q', 'R', 'S', 'T', 'U', 'V', 'W', 'X', 'Y', 'Z',
   'a', 'b', 'c', 'd', 'e', 'f', 'g', 'h', 'i', 'j', 'k', 'm', 'n',
   'o', 'p', 'q', 'r', 's', 't', 'u', 'v', 'w', 'x', 'y', 'z']

/-- Index of the first occurrence of a character in a list, if any. -/
def charIndex (c : Char) : List Char → Option Nat
  | [] => none
  | d :: ds => if d = c then some 0 else (charIndex c ds).map (fun i => i + 1)

/-- Value of one base58 digit. -/
def base58Digit (c : Char) : Option Nat := charIndex c base58Chars

/-- Numeric value of a base58 string, big-endian; none when a character is
outside the alphabet. -/
def base58ValueAux (acc : Nat) : List Char → Option Nat
  | [] => some acc
  | c :: cs =>
    match base58Digit c with
    | none => none
    | some d => base58ValueAux (acc * 58 + d) cs

/-- Big-endian base-256 digits of a number, written with explicit fuel so
that the recursion is structural. -/
def natBytesFuel : Nat → Nat → List Nat
  | 0, _ => []
  | fuel + 1, n => if n = 0 then [] else natBytesFuel fuel (n / 256) ++ [n % 256]

/-- Big-endian base-256 digits of a number (empty for zero). -/
def natBytes (n : Nat) : List Nat := natBytesFuel n n

/-- Base58 decoding: one leading zero byte per leading 1 character, then
the big-endian bytes of the value of the digits. -/
def base58Decode (l : List Char) : Option (List Nat) :=
  match base58ValueAux 0 l with
  | none => none
  | some v =>
    some (List.replicate (l.takeWhile (fun c => c = '1')).length 0 ++ natBytes v)

/-- Acceptance test of Pubkey.from_string: the string decodes under base58
to exactly 32 bytes. -/
def pubkeyValid (l : List Char) : Bool :=
  match base58Decode l with
  | none => false
  | some bs => bs.length == 32

/-- Acceptance test of Signature.from_string: the string decodes under
base58 to exactly 64 bytes. -/
def signatureValid (l : List Char) : Bool :=
  match base58Decode l with
  | none => false
  | some bs => bs.length == 64

/-- Unreserved characters that urllib.parse.quote never encodes: ASCII
letters, digits, and the four marks underscore, dot, dash, tilde. -/
def isUrlSafe (c : Char) : Bool :=
  (65 ≤ c.toNat && c.toNat ≤ 90) || (97 ≤ c.toNat && c.toNat ≤ 122) ||
    (48 ≤ c.toNat && c.toNat ≤ 57) ||
    c = '_' || c = '.' || c = '-' || c = '~'

/-- Uppercase hexadecimal digit for a value below 16. -/
def hexDigit (n : Nat) : Char :=
  if n < 10 then Char.ofNat (48 + n) else Char.ofNat (55 + n)

/-- UTF-8 encoding of one code point, as the list of its byte values. -/
def utf8Bytes (c : Char) : List Nat :=
  if c.toNat < 128 then [c.toNat]
  else if c.toNat < 2048 then [192 + c.toNat / 64, 128 + c.toNat % 64]
  else if c.toNat < 65536 then
    [224 + c.toNat / 4096, 128 + c.toNat / 64 % 64, 128 + c.toNat % 64]
  else
    [240 + c.toNat / 262144, 128 + c.toNat / 4096 % 64, 128 + c.toNat / 64 % 64,
     128 + c.toNat % 64]

/-- Percent-escape of one byte: a percent sign and two uppercase hex
digits. -/
def pctByte (b : Nat) : List Char := ['%', hexDigit (b / 16), hexDigit (b % 16)]

/-- Encoding of one character under urllib.parse.quote_plus: space becomes
plus, unreserved characters stay, anything else is percent-escaped byte by
byte over its UTF-8 encoding. -/
def quotePlusChar (c : Char) : List Char :=
  if c = ' ' then ['+']
  else if isUrlSafe c then [c]
  else (utf8Bytes c).flatMap pctByte

/-- quote_plus over a whole string (as a character list). -/
def quotePlus (l : List Char) : List Char := l.flatMap quotePlusChar

/-- One key=value piece of a query string, both sides quoted, as built by
urllib.parse.urlencode. -/
def encodePair (p : String × String) : List Char :=
  quotePlus p.1.data ++ '=' :: quotePlus p.2.data

/-- Join of a list of pieces with a separator character, as str.join. -/
def joinSep (sep : Char) : List (List Char) → List Char
  | [] => []
  | [p] => p
  | p :: q :: ps => p ++ sep :: joinSep sep (q :: ps)

/-- urllib.parse.urlencode over an association list (Python dicts iterate
in insertion order). -/
def urlencode (ps : List (String × String)) : List Char :=
  joinSep '&' (ps.map encodePair)

/-- Arguments of generate_payment_url. The float amount is represented by
the two observations the code makes of it: amountPos is the truth value of
the Python test amount > 0, and amountStr is the rendering str(amount).
Optional parameters are None or a string, as in the Python signature. -/
structure UrlArgs where
  recipient : String
  amountPos : Bool
  amountStr : String
  spl_token : Option String := none
  reference : Option String := none
  label : Option String := none
  message : Option String := none
  memo : Option String := none

/-- Python truthiness of an optional-string argument: present and
non-empty. -/
def optPresent (v : Option String) : Bool :=
  match v with
  | none => false
  | some s => !s.isEmpty

/-- Contribution of one optional field to the parameter dictionary: the
field is added under its key only when truthy. -/
def optParam (key : String) (v : Option String) : List (String × String) :=
  match v with
  | none => []
  | some s => if s.isEmpty then [] else [(key, s)]

/-- Parameter dictionary built by generate_payment_url, in the insertion
order of the source: amount (only when amount > 0), then spl-token,
reference, label, message, memo (each only when truthy). -/
def paymentParams (a : UrlArgs) : List (String × String) :=
  (if a.amountPos then [("amount", a.amountStr)] else [])
    ++ optParam "spl-token" a.spl_token
    ++ optParam "reference" a.reference
    ++ optParam "label" a.label
    ++ optParam "message" a.message
    ++ optParam "memo" a.memo

/-- SolanaPayUtil.generate_payment_url: validate the recipient (raising
ValueError "Invalid recipient address", modelled as the error branch, when
Pubkey.from_string fails), build the parameter dictionary, and append the
url-encoded query to solana:<recipient> only when the dictionary is
non-empty. -/
def generate_payment_url (a : UrlArgs) : Except String String :=
  if pubkeyValid a.recipient.data then
    let params := paymentParams a
    let base := "solana:" ++ a.recipient
    if params.isEmpty then Except.ok base
    else Except.ok (base ++ "?" ++ String.mk (urlencode params))
  else Except.error "Invalid recipient address"

/-!
Reference-side URI parser for the round-trip property: standard
scheme/path/query decomposition, query split on ampersands, each piece
split at its first equals sign, both sides percent-decoded (plus becomes
space, percent escapes become bytes, the byte string is UTF-8 decoded).
-/

/-- Value of one hexadecimal digit, either case. -/
def hexVal (c : Char) : Option Nat :=
  if 48 ≤ c.toNat ∧ c.toNat ≤ 57 then some (c.toNat - 48)
  else if 65 ≤ c.toNat ∧ c.toNat ≤ 70 then some (c.toNat - 55)
  else if 97 ≤ c.toNat ∧ c.toNat ≤ 102 then some (c.toNat - 87)
  else none

/-- Byte string denoted by a percent-encoded text: a percent escape is one
byte, a plus is a space, any other character contributes its UTF-8 bytes. -/
def pctDecodeBytes : List Char → Option (List Nat)
  | [] => some []
  | c :: rest =>
    if c = '%' then
      match rest with
      | c1 :: c2 :: rest2 =>
        match hexVal c1, hexVal c2 with
        | some a, some b => (pctDecodeBytes rest2).map (fun bs => (16 * a + b) :: bs)
        | _, _ => none
      | _ => none
    else if c = '+' then (pctDecodeBytes rest).map (fun bs => 32 :: bs)
    else (pctDecodeBytes rest).map (fun bs => utf8Bytes c ++ bs)

/-- UTF-8 decoding of a byte string, with fuel bounding the number of
decoded characters so that the recursion is structural. -/
def utf8DecodeFuel : Nat → List Nat → Option (List Char)
  | _, [] => some []
  | 0, _ :: _ => none
  | fuel + 1, b :: rest =>
    if b < 128 then (utf8DecodeFuel fuel rest).map (fun cs => Char.ofNat b :: cs)
    else if b < 224 then
      match rest with
      | b1 :: rest1 =>
        if 192 ≤ b ∧ 128 ≤ b1 ∧ b1 < 192 then
          let n := (b - 192) * 64 + (b1 - 128)
          if 128 ≤ n then
            (utf8DecodeFuel fuel rest1).map (fun cs => Char.ofNat n :: cs)
          else none
        else none
      | [] => none
    else if b < 240 then
      match rest with
      | b1 :: b2 :: rest2 =>
        if 128 ≤ b1 ∧ b1 < 192 ∧ 128 ≤ b2 ∧ b2 < 192 then
          let n := (b - 224) * 4096 + (b1 - 128) * 64 + (b2 - 128)
          if 2048 ≤ n ∧ ¬(55296 ≤ n ∧ n ≤ 57343) then
            (utf8DecodeFuel fuel rest2).map (fun cs => Char.ofNat n :: cs)
          else none
        else none
      | _ => none
    else
      match rest with
      | b1 :: b2 :: b3 :: rest3 =>
        if b < 248 ∧ 128 ≤ b1 ∧ b1 < 192 ∧ 128 ≤ b2 ∧ b2 < 192 ∧
            128 ≤ b3 ∧ b3 < 192 then
          let n := (b - 240) * 262144 + (b1 - 128) * 4096 + (b2 - 128) * 64 +
            (b3 - 128)
          if 65536 ≤ n ∧ n < 1114112 then
            (utf8DecodeFuel fuel rest3).map (fun cs => Char.ofNat n :: cs)
          else none
        else none
      | _ => none

/-- Percent-decoding of one query token (urllib.parse.unquote_plus). -/
def unquotePlus (l : List Char) : Option (List Char) :=
  match pctDecodeBytes l with
  | none => none
  | some bs => utf8DecodeFuel bs.length bs

/-- Split of a character list on every occurrence of a separator. -/
def splitOnSep (sep : Char) : List Char → List (List Char)
  | [] => [[]]
  | c :: rest =>
    if c = sep then [] :: splitOnSep sep rest
    else
      match splitOnSep sep rest with
      | [] => [[c]]
      | p :: ps => (c :: p) :: ps

/-- Split of a character list at the first occurrence of a separator:
the part before it, and the part after it when it occurs. -/
def breakAtChar (sep : Char) : List Char → List Char × Option (List Char)
  | [] => ([], none)
  | c :: rest =>
    if c = sep then ([], some rest)
    else
      let r := breakAtChar sep rest
      (c :: r.1, r.2)

/-- Decoding of one key=value piece of a query string. -/
def parsePiece (piece : List Char) : Option (List Char × List Char) :=
  match breakAtChar '=' piece with
  | (_, none) => none
  | (k, some v) =>
    match unquotePlus k, unquotePlus v with
    | some dk, some dv => some (dk, dv)
    | _, _ => none

/-- Decoding of every key=value piece of a query string, in order. -/
def parseQuery (pieces : List (List Char)) : Option (List (List Char × List Char)) :=
  match pieces with
  | [] => some []
  | piece :: rest =>
    match parsePiece piece, parseQuery rest with
    | some p, some ps => some (p :: ps)
    | _, _ => none

/-- Standard decomposition of a payment URI: the solana scheme, the path up
to an optional question mark, and the decoded query parameters. -/
def parsePaymentUri (u : List Char) : Option (List Char × List (List Char × List Char)) :=
  match u with
  | 's' :: 'o' :: 'l' :: 'a' :: 'n' :: 'a' :: ':' :: rest =>
    match breakAtChar '?' rest with
    | (r, none) => some (r, [])
    | (r, some q) =>
      match parseQuery (splitOnSep '&' q) with
      | none => none
      | some ps => some (r, ps)
  | _ => none

/-!
Transaction verification and balance lookup. The RPC client is modelled by
an environment value: what the single client.get_transaction (respectively
client.get_balance) call would do, either return a response carrying its
value field or raise an exception rendered as a message string.
-/

/-- Outcome of one RPC client call: a response value, or a raised
exception with its message. -/
inductive RpcCall (α : Type) where
  | value : α → RpcCall α
  | raised : String → RpcCall α
deriving DecidableEq

/-- Transaction metadata used by verify_transaction: err is None or the
rendering of the on-chain error object (such an object is truthy), fee and
the balance lists are taken verbatim. -/
structure TxMeta where
  err : Option String
  fee : Nat
  pre_balances : List Nat
  post_balances : List Nat
deriving DecidableEq

/-- Transaction record returned by the RPC for a found transaction. -/
structure TxInfo where
  slot : Nat
  block_time : Option Int
  meta : TxMeta
deriving DecidableEq

/-- Environment of one verify_transaction call: the behaviour of the
client.get_transaction call, and the rendering str(e) of the exception
raised by Signature.from_string on a malformed signature. -/
structure VerifyEnv where
  getTx : RpcCall (Option TxInfo)
  sigExnMsg : String
deriving DecidableEq

/-- Result dictionary of verify_transaction: either
\x7bverified: False, error: msg\x7d or the verified-True record with the
echoed signature and the fields drawn from the RPC response. -/
inductive VerifyResult where
  | failure : String → VerifyResult
  | ok : String → Nat → Option Int → Nat → List Nat → List Nat → VerifyResult
deriving DecidableEq

/-- SolanaPayUtil.verify_transaction. The whole body runs under one
try/except, so a signature-parse failure is caught and rendered as
Verification failed: str(e); the result is paired with the number of
client.get_transaction invocations the call performed. The
expected_recipient and expected_amount arguments reach only the
if expected_recipient or expected_amount: pass statement of the source,
which does nothing. -/
def verify_transaction (env : VerifyEnv) (signature : String)
    (expected_recipient : Option String) (expected_amount : Option ℚ) :
    VerifyResult × Nat :=
  if signatureValid signature.data then
    match env.getTx with
    | RpcCall.raised msg => (VerifyResult.failure ("Verification failed: " ++ msg), 1)
    | RpcCall.value none => (VerifyResult.failure "Transaction not found", 1)
    | RpcCall.value (some tx) =>
      match tx.meta.err with
      | some e => (VerifyResult.failure ("Transaction failed: " ++ e), 1)
      | none =>
        (VerifyResult.ok signature tx.slot tx.block_time tx.meta.fee
          tx.meta.pre_balances tx.meta.post_balances, 1)
  else (VerifyResult.failure ("Verification failed: " ++ env.sigExnMsg), 0)

/-- SolanaPayUtil.get_account_balance: parse the address, issue one
client.get_balance call, and convert lamports to SOL by the fixed divisor
1e9 (exact division, carried out over the rationals); any exception and an
absent response value give None, after only printing a diagnostic. -/
def get_account_balance (env : RpcCall (Option Nat)) (address : String) :
    Option ℚ :=
  if pubkeyValid address.data then
    match env with
    | RpcCall.raised _ => none
    | RpcCall.value none => none
    | RpcCall.value (some lamports) => some ((lamports : ℚ) / 10 ^ 9)
  else none

/-!
Helper lemmas: the base58 alphabet, the quote_plus output alphabet, and
character facts.
-/

/-- Validity bounds of a character's code point. -/
theorem char_toNat_ranges (c : Char) :
    c.toNat < 55296 ∨ (57343 < c.toNat ∧ c.toNat < 1114112) := c.valid

/-- Code points are below the Unicode bound. -/
theorem char_toNat_lt (c : Char) : c.toNat < 1114112 := by
  rcases char_toNat_ranges c with h | h
  · omega
  · omega

/-- Every character of a string whose base58 value exists is a base58
digit. -/
theorem base58ValueAux_mem_isSome (l : List Char) :
    ∀ acc v, base58ValueAux acc l = some v → ∀ c ∈ l, (base58Digit c).isSome := by
  induction l with
  | nil => intro acc v _ c hc; cases hc
  | cons d ds ih =>
    intro acc v h c hc
    rw [base58ValueAux] at h
    cases hd : base58Digit d with
    | none => rw [hd] at h; cases h
    | some k =>
      rw [hd] at h
      rcases List.mem_cons.mp hc with rfl | hc
      · rw [hd]; rfl
      · exact ih (acc * 58 + k) v h c hc

/-- Every character of a valid pubkey string is a base58 digit. -/
theorem pubkeyValid_mem (l : List Char) (h : pubkeyValid l = true) :
    ∀ c ∈ l, (base58Digit c).isSome := by
  intro c hc
  unfold pubkeyValid base58Decode at h
  cases hv : base58ValueAux 0 l with
  | none => rw [hv] at h; cases h
  | some v => exact base58ValueAux_mem_isSome l 0 v hv c hc

/-- A valid pubkey string contains no question mark. -/
theorem pubkeyValid_no_questionMark (l : List Char) (h : pubkeyValid l = true) :
    '?' ∉ l := by
  intro hm
  have h1 := pubkeyValid_mem l h _ hm
  have h2 : (base58Digit '?').isSome = false := by decide
  rw [h2] at h1
  cases h1

/-- Every byte of a UTF-8 encoding is below 256. -/
theorem utf8Bytes_lt (c : Char) : ∀ b ∈ utf8Bytes c, b < 256 := by
  intro b hb
  have hv := char_toNat_lt c
  unfold utf8Bytes at hb
  split_ifs at hb <;> simp only [List.mem_cons, List.not_mem_nil, or_false] at hb <;>
    rcases hb with rfl | hb <;> first | omega | (rcases hb with rfl | hb <;>
      first | omega | (rcases hb with rfl | rfl <;> omega))

/-- A UTF-8 encoding is never empty. -/
theorem utf8Bytes_length_pos (c : Char) : 0 < (utf8Bytes c).length := by
  unfold utf8Bytes
  split_ifs <;> simp

/-- Shape of the characters quote_plus emits: a plus, a percent, an
unreserved character, or a hex digit. -/
theorem mem_quotePlusChar (c x : Char) (hx : x ∈ quotePlusChar c) :
    x = '+' ∨ x = '%' ∨ isUrlSafe x = true ∨ ∃ n, n < 16 ∧ x = hexDigit n := by
  unfold quotePlusChar at hx
  split_ifs at hx with h1 h2
  · left; simpa using hx
  · right; right; left
    have hxc : x = c := by simpa using hx
    rw [hxc]; exact h2
  · rw [List.mem_flatMap] at hx
    obtain ⟨b, hb, hxp⟩ := hx
    have hblt := utf8Bytes_lt c b hb
    unfold pctByte at hxp
    simp only [List.mem_cons, List.not_mem_nil, or_false] at hxp
    rcases hxp with rfl | rfl | rfl
    · right; left; rfl
    · right; right; right; exact ⟨b / 16, by omega, rfl⟩
    · right; right; right; exact ⟨b % 16, by omega, rfl⟩

/-- A character that is not a plus, a percent, unreserved, or a hex digit
never occurs in a quote_plus output. -/
theorem not_mem_quotePlus (d : Char) (hd1 : d ≠ '+') (hd2 : d ≠ '%')
    (hd3 : isUrlSafe d = false) (hd4 : ∀ n, n < 16 → hexDigit n ≠ d)
    (l : List Char) : d ∉ quotePlus l := by
  intro hm
  unfold quotePlus at hm
  rw [List.mem_flatMap] at hm
  obtain ⟨c, _, hx⟩ := hm
  rcases mem_quotePlusChar c d hx with h | h | h | ⟨n, hn, h⟩
  · exact hd1 h
  · exact hd2 h
  · rw [hd3] at h; cases h
  · exact hd4 n hn h.symm

/-- No ampersand in a quote_plus output. -/
theorem amp_not_mem_quotePlus (l : List Char) : '&' ∉ quotePlus l := by
  refine not_mem_quotePlus _ (by decide) (by decide) (by decide) (by decide) l

/-- No equals sign in a quote_plus output. -/
theorem eq_not_mem_quotePlus (l : List Char) : '=' ∉ quotePlus l := by
  refine not_mem_quotePlus _ (by decide) (by decide) (by decide) (by decide) l

/-!
Helper lemmas: splitting is a left inverse of joining.
-/

/-- Splitting at the first separator of a separator-free list. -/
theorem breakAtChar_no_sep (sep : Char) (l : List Char) (h : sep ∉ l) :
    breakAtChar sep l = (l, none) := by
  induction l with
  | nil => rfl
  | cons c rest ih =>
    rw [breakAtChar]
    have hc : ¬c = sep := fun he => h (he ▸ List.mem_cons_self c rest)
    rw [if_neg hc, ih (fun hm => h (List.mem_cons_of_mem c hm))]

/-- Splitting at the first separator occurrence. -/
theorem breakAtChar_first (sep : Char) (a b : List Char) (h : sep ∉ a) :
    breakAtChar sep (a ++ sep :: b) = (a, some b) := by
  induction a with
  | nil => simp [breakAtChar]
  | cons c rest ih =>
    rw [List.cons_append, breakAtChar]
    have hc : ¬c = sep := fun he => h (he ▸ List.mem_cons_self c rest)
    rw [if_neg hc, ih (fun hm => h (List.mem_cons_of_mem c hm))]

/-- Splitting a separator-free list on the separator. -/
theorem splitOnSep_no_sep (sep : Char) (p : List Char) (h : sep ∉ p) :
    splitOnSep sep p = [p] := by
  induction p with
  | nil => rfl
  | cons c rest ih =>
    rw [splitOnSep]
    have hc : ¬c = sep := fun he => h (he ▸ List.mem_cons_self c rest)
    rw [if_neg hc, ih (fun hm => h (List.mem_cons_of_mem c hm))]

/-- Splitting a list whose head piece is separator-free. -/
theorem splitOnSep_append (sep : Char) (p rest : List Char) (h : sep ∉ p) :
    splitOnSep sep (p ++ sep :: rest) = p :: splitOnSep sep rest := by
  induction p with
  | nil => simp [splitOnSep]
  | cons c q ih =>
    rw [List.cons_append, splitOnSep]
    have hc : ¬c = sep := fun he => h (he ▸ List.mem_cons_self c q)
    rw [if_neg hc, ih (fun hm => h (List.mem_cons_of_mem c hm))]

/-- Splitting on the separator is a left inverse of joining with it, for a
non-empty list of separator-free pieces. -/
theorem splitOnSep_joinSep (sep : Char) (pieces : List (List Char))
    (hne : pieces ≠ []) (h : ∀ p ∈ pieces, sep ∉ p) :
    splitOnSep sep (joinSep sep pieces) = pieces := by
  induction pieces with
  | nil => cases hne rfl
  | cons p ps ih =>
    cases ps with
    | nil => rw [joinSep]; exact splitOnSep_no_sep sep p (h p (by simp))
    | cons q qs =>
      rw [joinSep, splitOnSep_append sep p _ (h p (by simp)),
        ih (by simp) (fun r hr => h r (List.mem_cons_of_mem p hr))]

/-!
Helper lemmas: UTF-8 decoding inverts UTF-8 encoding.
-/

/-- Decoding one encoded character off the front of a byte string. -/
theorem utf8DecodeFuel_encode (c : Char) (fuel : Nat) (rest : List Nat) :
    utf8DecodeFuel (fuel + 1) (utf8Bytes c ++ rest) =
      (utf8DecodeFuel fuel rest).map (fun cs => c :: cs) := by
  have hv := char_toNat_ranges c
  unfold utf8Bytes
  split_ifs with h1 h2 h3 <;>
    simp only [List.append_eq, List.cons_append, List.singleton_append,
      List.nil_append, utf8DecodeFuel] <;>
    split_ifs with g1 g2 g3 g4 g5 <;>
    first
      | (exfalso; omega)
      | (congr 1; funext cs; congr 1
         first
           | rw [Char.ofNat_toNat]
           | (have he : (192 + c.toNat / 64 - 192) * 64 +
                 (128 + c.toNat % 64 - 128) = c.toNat := by omega
              rw [he, Char.ofNat_toNat])
           | (have he : (224 + c.toNat / 4096 - 224) * 4096 +
                 (128 + c.toNat / 64 % 64 - 128) * 64 +
                 (128 + c.toNat % 64 - 128) = c.toNat := by omega
              rw [he, Char.ofNat_toNat])
           | (have he : (240 + c.toNat / 262144 - 240) * 262144 +
                 (128 + c.toNat / 4096 % 64 - 128) * 4096 +
                 (128 + c.toNat / 64 % 64 - 128) * 64 +
                 (128 + c.toNat % 64 - 128) = c.toNat := by omega
              rw [he, Char.ofNat_toNat]))

/-- UTF-8 decoding of the empty byte string. -/
theorem utf8DecodeFuel_nil (n : Nat) : utf8DecodeFuel n [] = some [] := by
  cases n <;> rfl

/-- Each character contributes at least one byte to its encoding. -/
theorem length_le_flatMap_utf8 (cs : List Char) :
    cs.length ≤ (cs.flatMap utf8Bytes).length := by
  induction cs with
  | nil => simp
  | cons c cs ih =>
    simp only [List.flatMap_cons, List.length_append, List.length_cons]
    have := utf8Bytes_length_pos c
    omega

/-- UTF-8 decoding with enough fuel inverts encoding. -/
theorem utf8DecodeFuel_flatMap (cs : List Char) (fuel : Nat) :
    utf8DecodeFuel (cs.length + fuel) (cs.flatMap utf8Bytes) = some cs := by
  induction cs generalizing fuel with
  | nil => rw [List.flatMap_nil, utf8DecodeFuel_nil]
  | cons c cs ih =>
    rw [List.flatMap_cons]
    have hl : (c :: cs).length + fuel = (cs.length + fuel) + 1 := by
      rw [List.length_cons]; omega
    rw [hl, utf8DecodeFuel_encode, ih]
    rfl

/-!
Helper lemmas: percent-decoding inverts quote_plus.
-/

/-- Decoding a hex digit gives back its value. -/
theorem hexVal_hexDigit : ∀ n, n < 16 → hexVal (hexDigit n) = some n := by decide

/-- Unfolding of the decoder on a plus sign. -/
theorem pctDecodeBytes_plus (l : List Char) :
    pctDecodeBytes ('+' :: l) = (pctDecodeBytes l).map (fun bs => 32 :: bs) := by
  rw [pctDecodeBytes.eq_def]
  simp

/-- Unfolding of the decoder on a raw (unescaped, non-plus) character. -/
theorem pctDecodeBytes_raw (c : Char) (l : List Char) (h1 : ¬c = '%')
    (h2 : ¬c = '+') :
    pctDecodeBytes (c :: l) = (pctDecodeBytes l).map (fun bs => utf8Bytes c ++ bs) := by
  rw [pctDecodeBytes.eq_def]
  simp [h1, h2]

/-- Unfolding of the decoder on a well-formed percent escape. -/
theorem pctDecodeBytes_escape (l : List Char) (c1 c2 : Char) (a b : Nat)
    (h1 : hexVal c1 = some a) (h2 : hexVal c2 = some b) :
    pctDecodeBytes ('%' :: c1 :: c2 :: l) =
      (pctDecodeBytes l).map (fun bs => (16 * a + b) :: bs) := by
  rw [pctDecodeBytes.eq_def]
  simp [h1, h2]

/-- Decoding one percent escape off the front of a text. -/
theorem pctDecodeBytes_pctByte (b : Nat) (hb : b < 256) (l : List Char) :
    pctDecodeBytes (pctByte b ++ l) = (pctDecodeBytes l).map (fun bs => b :: bs) := by
  unfold pctByte
  simp only [List.cons_append, List.nil_append]
  rw [pctDecodeBytes_escape l _ _ (b / 16) (b % 16)
    (hexVal_hexDigit (b / 16) (by omega)) (hexVal_hexDigit (b % 16) (by omega))]
  have he : 16 * (b / 16) + b % 16 = b := by omega
  rw [he]

/-- Decoding a run of percent escapes off the front of a text. -/
theorem pctDecodeBytes_chunk (bs : List Nat) (hb : ∀ b ∈ bs, b < 256) (l : List Char) :
    pctDecodeBytes (bs.flatMap pctByte ++ l) =
      (pctDecodeBytes l).map (fun r => bs ++ r) := by
  induction bs with
  | nil => cases h : pctDecodeBytes l <;> simp [h]
  | cons b bs ih =>
    rw [List.flatMap_cons, List.append_assoc,
      pctDecodeBytes_pctByte b (hb b (List.mem_cons_self b bs)),
      ih (fun x hx => hb x (List.mem_cons_of_mem b hx))]
    cases pctDecodeBytes l <;> simp

/-- Decoding one quoted character off the front of a text. -/
theorem pctDecodeBytes_quoteChar (c : Char) (l : List Char) :
    pctDecodeBytes (quotePlusChar c ++ l) =
      (pctDecodeBytes l).map (fun bs => utf8Bytes c ++ bs) := by
  unfold quotePlusChar
  split_ifs with h1 h2
  · subst h1
    simp only [List.cons_append, List.nil_append, pctDecodeBytes_plus]
    cases pctDecodeBytes l <;> simp [utf8Bytes]
  · have hc1 : ¬c = '%' := by intro he; rw [he] at h2; cases h2
    have hc2 : ¬c = '+' := by intro he; rw [he] at h2; cases h2
    simp only [List.cons_append, List.nil_append]
    rw [pctDecodeBytes_raw c l hc1 hc2]
  · exact pctDecodeBytes_chunk (utf8Bytes c) (utf8Bytes_lt c) l

/-- Decoding a quoted string off the front of a text. -/
theorem pctDecodeBytes_quotePlus (s l : List Char) :
    pctDecodeBytes (quotePlus s ++ l) =
      (pctDecodeBytes l).map (fun bs => s.flatMap utf8Bytes ++ bs) := by
  induction s with
  | nil =>
    simp only [quotePlus, List.flatMap_nil, List.nil_append]
    cases pctDecodeBytes l <;> simp
  | cons c cs ih =>
    simp only [quotePlus, List.flatMap_cons] at ih ⊢
    rw [List.append_assoc, pctDecodeBytes_quoteChar, ih]
    cases pctDecodeBytes l <;> simp

/-- unquote_plus is a left inverse of quote_plus. -/
theorem unquotePlus_quotePlus (s : List Char) :
    unquotePlus (quotePlus s) = some s := by
  unfold unquotePlus
  have h := pctDecodeBytes_quotePlus s []
  rw [List.append_nil] at h
  have h0 : pctDecodeBytes ([] : List Char) = some [] := rfl
  rw [h0] at h
  simp at h
  rw [h]
  have hlen := length_le_flatMap_utf8 s
  have hsplit : (s.flatMap utf8Bytes).length =
      s.length + ((s.flatMap utf8Bytes).length - s.length) := by omega
  show utf8DecodeFuel (s.flatMap utf8Bytes).length (s.flatMap utf8Bytes) = some s
  rw [hsplit, utf8DecodeFuel_flatMap]

/-!
Helper lemmas: parsing a built URI recovers the inputs.
-/

/-- Parsing one encoded key=value piece recovers the pair. -/
theorem parsePiece_encodePair (p : String × String) :
    parsePiece (encodePair p) = some (p.1.data, p.2.data) := by
  unfold parsePiece encodePair
  rw [breakAtChar_first '=' _ _ (eq_not_mem_quotePlus p.1.data)]
  simp [unquotePlus_quotePlus]

/-- No ampersand occurs in an encoded piece. -/
theorem amp_not_mem_encodePair (p : String × String) : '&' ∉ encodePair p := by
  unfold encodePair
  intro hm
  rcases List.mem_append.mp hm with h | h
  · exact amp_not_mem_quotePlus _ h
  · rcases List.mem_cons.mp h with he | h
    · exact absurd he (by decide)
    · exact amp_not_mem_quotePlus _ h

/-- Parsing a list of encoded pieces recovers the pairs. -/
theorem parseQuery_encode (ps : List (String × String)) :
    parseQuery (ps.map encodePair) =
      some (ps.map (fun p => (p.1.data, p.2.data))) := by
  induction ps with
  | nil => rfl
  | cons p ps ih =>
    simp only [List.map_cons, parseQuery]
    rw [parsePiece_encodePair, ih]

/-- Character list of the scheme literal. -/
theorem solana_scheme_data :
    ("solana:").data = ['s', 'o', 'l', 'a', 'n', 'a', ':'] := rfl

/-- Parsing the URI built by generate_payment_url yields the recipient and
exactly the parameter dictionary that was built, in order. -/
theorem buildUri_parse (a : UrlArgs) (h : pubkeyValid a.recipient.data = true) :
    ∃ u, generate_payment_url a = Except.ok u ∧
      parsePaymentUri u.data =
        some (a.recipient.data,
          (paymentParams a).map (fun p => (p.1.data, p.2.data))) := by
  unfold generate_payment_url
  rw [if_pos h]
  by_cases hp : (paymentParams a).isEmpty
  · rw [if_pos hp]
    refine ⟨_, rfl, ?_⟩
    rw [String.data_append, solana_scheme_data]
    simp only [List.cons_append, List.nil_append, parsePaymentUri]
    rw [breakAtChar_no_sep '?' _ (pubkeyValid_no_questionMark _ h)]
    rw [List.isEmpty_iff.mp hp]
    rfl
  · rw [if_neg hp]
    refine ⟨_, rfl, ?_⟩
    rw [String.data_append, String.data_append, String.data_append,
      solana_scheme_data]
    have hq : ("?").data = ['?'] := rfl
    have hmk : (String.mk (urlencode (paymentParams a))).data =
      urlencode (paymentParams a) := rfl
    rw [hq, hmk, List.append_assoc, List.append_assoc]
    simp only [List.cons_append, List.nil_append, List.singleton_append,
      parsePaymentUri]
    rw [breakAtChar_first '?' _ _ (pubkeyValid_no_questionMark _ h)]
    have hne : (paymentParams a).map encodePair ≠ [] := by
      intro he
      rw [List.map_eq_nil_iff] at he
      rw [he] at hp
      exact hp rfl
    show (match parseQuery (splitOnSep '&'
        (joinSep '&' ((paymentParams a).map encodePair))) with
      | none => none
      | some ps => some (a.recipient.data, ps)) =
      some (a.recipient.data, (paymentParams a).map (fun p => (p.1.data, p.2.data)))
    rw [splitOnSep_joinSep '&' _ hne (fun piece hpc => by
      rcases List.mem_map.mp hpc with ⟨q, _, rfl⟩
      exact amp_not_mem_encodePair q)]
    rw [parseQuery_encode]

/-!
Helper lemmas: the parameter dictionary.
-/

/-- String equality follows from equality of the character lists. -/
theorem string_data_inj (a b : String) (h : a.data = b.data) : a = b :=
  congrArg String.mk h

/-- An absent or empty optional field contributes nothing. -/
theorem optParam_eq_nil (key : String) (v : Option String)
    (h : optPresent v = false) : optParam key v = [] := by
  cases v with
  | none => rfl
  | some s =>
    simp only [optPresent] at h
    simp only [optParam]
    rw [if_pos (by revert h; cases s.isEmpty <;> simp)]

/-- A present (truthy) optional field contributes exactly its pair. -/
theorem optParam_eq_single (key : String) (v : Option String)
    (h : optPresent v = true) : ∃ s, v = some s ∧ optParam key v = [(key, s)] := by
  cases v with
  | none => cases h
  | some s =>
    refine ⟨s, rfl, ?_⟩
    simp only [optPresent] at h
    simp only [optParam]
    rw [if_neg (by revert h; cases s.isEmpty <;> simp)]

/-- Membership in an optional contribution pins the key and the value. -/
theorem mem_optParam (key : String) (v : Option String) (k w : String)
    (h : (k, w) ∈ optParam key v) : k = key ∧ v = some w := by
  cases v with
  | none => cases h
  | some s =>
    simp only [optParam] at h
    by_cases he : s.isEmpty
    · rw [if_pos he] at h; cases h
    · rw [if_neg he] at h
      have hp := List.mem_singleton.mp h
      have h1 : k = key := congrArg Prod.fst hp
      have h2 : w = s := congrArg Prod.snd hp
      exact ⟨h1, by rw [h2]⟩

/-- The amount pair occurs in the dictionary exactly when the amount is
positive, and then carries the rendered amount string. -/
theorem amount_mem_paymentParams (a : UrlArgs) (w : String) :
    ("amount", w) ∈ paymentParams a ↔ (a.amountPos = true ∧ w = a.amountStr) := by
  unfold paymentParams
  constructor
  · intro hm
    simp only [List.mem_append] at hm
    rcases hm with ((((hm | hm) | hm) | hm) | hm) | hm
    · by_cases hp : a.amountPos = true
      · rw [if_pos hp] at hm
        have hpair := List.mem_singleton.mp hm
        exact ⟨hp, congrArg Prod.snd hpair⟩
      · rw [if_neg hp] at hm
        exact absurd hm (List.not_mem_nil _)
    · exact absurd (mem_optParam _ _ _ _ hm).1 (by decide)
    · exact absurd (mem_optParam _ _ _ _ hm).1 (by decide)
    · exact absurd (mem_optParam _ _ _ _ hm).1 (by decide)
    · exact absurd (mem_optParam _ _ _ _ hm).1 (by decide)
    · exact absurd (mem_optParam _ _ _ _ hm).1 (by decide)
  · intro hw
    obtain ⟨h1, h2⟩ := hw
    subst h2
    simp only [List.mem_append]
    left; left; left; left; left
    simp [h1]

/-- Keys of one optional contribution form a sublist of the singleton of
its key. -/
theorem optParam_fst_sublist (key : String) (v : Option String) :
    List.Sublist ((optParam key v).map Prod.fst) [key] := by
  cases v with
  | none => simp [optParam]
  | some s =>
    simp only [optParam]
    split_ifs <;> simp

/-- Keys of the dictionary always appear in the fixed source order. -/
theorem paymentParams_keys_sublist (a : UrlArgs) :
    List.Sublist ((paymentParams a).map Prod.fst)
      ["amount", "spl-token", "reference", "label", "message", "memo"] := by
  unfold paymentParams
  simp only [List.map_append]
  show List.Sublist _
    (((((["amount"] ++ ["spl-token"]) ++ ["reference"]) ++ ["label"]) ++
      ["message"]) ++ ["memo"])
  refine List.Sublist.append (List.Sublist.append (List.Sublist.append
    (List.Sublist.append (List.Sublist.append ?_ (optParam_fst_sublist _ _))
      (optParam_fst_sublist _ _)) (optParam_fst_sublist _ _))
    (optParam_fst_sublist _ _)) (optParam_fst_sublist _ _)
  cases a.amountPos <;> simp

/-- A truthy SPL token field puts the hyphenated spl-token key in the
dictionary. -/
theorem splToken_mem_paymentParams (a : UrlArgs)
    (h : optPresent a.spl_token = true) :
    ∃ s, a.spl_token = some s ∧ ("spl-token", s) ∈ paymentParams a := by
  obtain ⟨s, hv, hp⟩ := optParam_eq_single "spl-token" a.spl_token h
  refine ⟨s, hv, ?_⟩
  unfold paymentParams
  simp only [List.mem_append]
  left; left; left; left; right
  rw [hp]
  exact List.mem_singleton.mpr rfl

/-- The dictionary is empty when the amount is not positive and every
optional field is absent or empty. -/
theorem paymentParams_eq_nil (a : UrlArgs) (ha : a.amountPos = false)
    (h1 : optPresent a.spl_token = false) (h2 : optPresent a.reference = false)
    (h3 : optPresent a.label = false) (h4 : optPresent a.message = false)
    (h5 : optPresent a.memo = false) : paymentParams a = [] := by
  unfold paymentParams
  rw [optParam_eq_nil _ _ h1, optParam_eq_nil _ _ h2, optParam_eq_nil _ _ h3,
    optParam_eq_nil _ _ h4, optParam_eq_nil _ _ h5]
  simp [ha]

/-!
The claims.
-/

/-- C1: verify_transaction never raises: whatever the signature string, the
environment (including a raising RPC transport) and the optional expected
values, the result is either a verified-false dictionary carrying an error
message or the verified-true record; in particular a well-formed signature
whose transaction the RPC does not find yields the not-found error
result. -/
theorem claim_verify_never_raises (env : VerifyEnv) (s : String)
    (er : Option String) (ea : Option ℚ) :
    ((∃ msg, (verify_transaction env s er ea).1 = VerifyResult.failure msg) ∨
      (∃ slot bt fee pre post, (verify_transaction env s er ea).1 =
        VerifyResult.ok s slot bt fee pre post)) ∧
    (signatureValid s.data = true → env.getTx = RpcCall.value none →
      (verify_transaction env s er ea).1 =
        VerifyResult.failure "Transaction not found") := by
  constructor
  · unfold verify_transaction
    by_cases hs : signatureValid s.data = true
    · rw [if_pos hs]
      cases hg : env.getTx with
      | raised msg => left; exact ⟨_, rfl⟩
      | value v =>
        cases v with
        | none => left; exact ⟨_, rfl⟩
        | some tx =>
          cases he : tx.meta.err with
          | some e =>
            left
            refine ⟨"Transaction failed: " ++ e, ?_⟩
            show (match tx.meta.err with
              | some e => (VerifyResult.failure ("Transaction failed: " ++ e), 1)
              | none => (VerifyResult.ok s tx.slot tx.block_time tx.meta.fee
                  tx.meta.pre_balances tx.meta.post_balances, 1)).1 = _
            rw [he]
          | none =>
            right
            refine ⟨tx.slot, tx.block_time, tx.meta.fee, tx.meta.pre_balances,
              tx.meta.post_balances, ?_⟩
            show (match tx.meta.err with
              | some e => (VerifyResult.failure ("Transaction failed: " ++ e), 1)
              | none => (VerifyResult.ok s tx.slot tx.block_time tx.meta.fee
                  tx.meta.pre_balances tx.meta.post_balances, 1)).1 = _
            rw [he]
    · rw [if_neg hs]; left; exact ⟨_, rfl⟩
  · intro hs hg
    unfold verify_transaction
    rw [if_pos hs, hg]

/-- Witness for C1: a well-formed all-ones signature with an RPC that
reports no transaction produces the not-found error result. -/
theorem claim_verify_never_raises_w :
    (verify_transaction ⟨RpcCall.value none, "boom"⟩
      "1111111111111111111111111111111111111111111111111111111111111111"
      none none).1 = VerifyResult.failure "Transaction not found" :=
  (claim_verify_never_raises ⟨RpcCall.value none, "boom"⟩
    "1111111111111111111111111111111111111111111111111111111111111111"
    none none).2 (by decide) rfl

/-- C2: with a valid recipient, a non-positive amount and every optional
field absent or empty, generate_payment_url returns exactly
solana:<recipient>, a string containing no question mark at all. -/
theorem claim_empty_fields_bare_url (a : UrlArgs)
    (hr : pubkeyValid a.recipient.data = true) (ha : a.amountPos = false)
    (h1 : optPresent a.spl_token = false) (h2 : optPresent a.reference = false)
    (h3 : optPresent a.label = false) (h4 : optPresent a.message = false)
    (h5 : optPresent a.memo = false) :
    generate_payment_url a = Except.ok ("solana:" ++ a.recipient) ∧
      '?' ∉ ("solana:" ++ a.recipient).data := by
  have hpp := paymentParams_eq_nil a ha h1 h2 h3 h4 h5
  constructor
  · simp [generate_payment_url, hr, hpp]
  · rw [String.data_append, solana_scheme_data]
    intro hm
    rcases List.mem_append.mp hm with h | h
    · exact absurd h (by decide)
    · exact pubkeyValid_no_questionMark _ hr h

/-- Witness for C2 at the system-program address with amount not positive
and all optional fields empty. -/
theorem claim_empty_fields_bare_url_w :
    generate_payment_url
        ⟨"11111111111111111111111111111111", false, "0",
          none, none, none, none, none⟩ =
      Except.ok ("solana:" ++ "11111111111111111111111111111111") ∧
      '?' ∉ ("solana:" ++ "11111111111111111111111111111111").data :=
  claim_empty_fields_bare_url _ (by decide) rfl rfl rfl rfl rfl rfl

/-- C3: for a valid recipient the produced URI parses, and its parameters
contain the amount key exactly when the amount is positive, and then with
the rendered amount string as its value, unchanged; a non-positive amount
is omitted rather than rejected. -/
theorem claim_amount_iff_positive (a : UrlArgs)
    (hr : pubkeyValid a.recipient.data = true) :
    ∃ u, generate_payment_url a = Except.ok u ∧
      ∃ ps, parsePaymentUri u.data = some (a.recipient.data, ps) ∧
        ∀ v, (("amount").data, v) ∈ ps ↔
          (a.amountPos = true ∧ v = a.amountStr.data) := by
  obtain ⟨u, hu, hparse⟩ := buildUri_parse a hr
  refine ⟨u, hu, _, hparse, ?_⟩
  intro v
  constructor
  · intro hv
    rcases List.mem_map.mp hv with ⟨⟨k, w⟩, hkw, hpair⟩
    have hk : k.data = ("amount").data := congrArg Prod.fst hpair
    have hw : w.data = v := congrArg Prod.snd hpair
    have hk2 : k = "amount" := string_data_inj _ _ hk
    rw [hk2] at hkw
    obtain ⟨hpos, hws⟩ := (amount_mem_paymentParams a w).mp hkw
    exact ⟨hpos, by rw [← hw, hws]⟩
  · intro hv
    obtain ⟨hpos, hveq⟩ := hv
    subst hveq
    exact List.mem_map.mpr
      ⟨("amount", a.amountStr), (amount_mem_paymentParams a _).mpr ⟨hpos, rfl⟩, rfl⟩

/-- Witness for C3 at amount string 0.1 with a valid recipient. -/
theorem claim_amount_iff_positive_w :
    ∃ u, generate_payment_url
        ⟨"11111111111111111111111111111112", true, "0.1",
          none, none, some "Demo", some "test", none⟩ = Except.ok u ∧
      ∃ ps, parsePaymentUri u.data =
          some (("11111111111111111111111111111112").data, ps) ∧
        ∀ v, (("amount").data, v) ∈ ps ↔
          (true = true ∧ v = ("0.1").data) :=
  claim_amount_iff_positive _ (by decide)

/-- C4: a recipient that Pubkey.from_string rejects makes
generate_payment_url fail with the invalid-address error whatever the
other arguments, with no partial output; and this is the only hard
validation: any call with a valid recipient succeeds, whatever the other
string fields hold. -/
theorem claim_invalid_recipient_error (a : UrlArgs) :
    (pubkeyValid a.recipient.data = false →
      generate_payment_url a = Except.error "Invalid recipient address") ∧
    (pubkeyValid a.recipient.data = true →
      ∃ u, generate_payment_url a = Except.ok u) := by
  constructor
  · intro h
    simp [generate_payment_url, h]
  · intro h
    obtain ⟨u, hu, _⟩ := buildUri_parse a h
    exact ⟨u, hu⟩

/-- Witness for C4 at the spec's example invalid recipient. -/
theorem claim_invalid_recipient_error_w :
    generate_payment_url
        ⟨"not-a-valid-address", true, "1", none, none, none, none, none⟩ =
      Except.error "Invalid recipient address" :=
  (claim_invalid_recipient_error _).1 (by decide)

/-- C5: a signature string that Signature.from_string rejects makes
verify_transaction return the verified-false dictionary built from the
parse exception, with zero get_transaction invocations. -/
theorem claim_malformed_signature_no_rpc (env : VerifyEnv) (s : String)
    (er : Option String) (ea : Option ℚ) (h : signatureValid s.data = false) :
    verify_transaction env s er ea =
      (VerifyResult.failure ("Verification failed: " ++ env.sigExnMsg), 0) := by
  simp [verify_transaction, h]

/-- Witness for C5 at a malformed three-character signature. -/
theorem claim_malformed_signature_no_rpc_w :
    verify_transaction ⟨RpcCall.value none, "Invalid signature"⟩ "abc"
        none none =
      (VerifyResult.failure ("Verification failed: " ++ "Invalid signature"), 0) :=
  claim_malformed_signature_no_rpc ⟨RpcCall.value none, "Invalid signature"⟩
    "abc" none none (by decide)

/-- C6: a well-formed signature whose transaction the RPC reports as found
with no on-chain error yields exactly the verified-true record, echoing
the input signature and drawing slot, block time, fee and balances from
the response. -/
theorem claim_success_record (env : VerifyEnv) (s : String) (er : Option String)
    (ea : Option ℚ) (tx : TxInfo) (hs : signatureValid s.data = true)
    (hg : env.getTx = RpcCall.value (some tx)) (he : tx.meta.err = none) :
    verify_transaction env s er ea =
      (VerifyResult.ok s tx.slot tx.block_time tx.meta.fee tx.meta.pre_balances
        tx.meta.post_balances, 1) := by
  unfold verify_transaction
  rw [if_pos hs, hg]
  show (match tx.meta.err with
    | some e => (VerifyResult.failure ("Transaction failed: " ++ e), 1)
    | none => (VerifyResult.ok s tx.slot tx.block_time tx.meta.fee
        tx.meta.pre_balances tx.meta.post_balances, 1)) = _
  rw [he]

/-- Witness for C6 at a concrete found-and-successful transaction. -/
theorem claim_success_record_w :
    verify_transaction
        ⟨RpcCall.value (some ⟨123, some 456, ⟨none, 5000, [10, 2], [3, 4]⟩⟩),
          "boom"⟩
        "1111111111111111111111111111111111111111111111111111111111111111"
        none none =
      (VerifyResult.ok
        "1111111111111111111111111111111111111111111111111111111111111111"
        123 (some 456) 5000 [10, 2] [3, 4], 1) :=
  claim_success_record _ _ none none _ (by decide) rfl rfl

/-- C7: the verification result is literally the same whatever the
expected_recipient and expected_amount hints are: the cross-check is
unimplemented, so the outcome depends only on the signature and the RPC
environment. -/
theorem claim_expected_hints_ignored (env : VerifyEnv) (s : String)
    (er er2 : Option String) (ea ea2 : Option ℚ) :
    verify_transaction env s er ea = verify_transaction env s er2 ea2 := rfl

/-- C8: round trip: parsing any URI produced by generate_payment_url with
a standard scheme/path/query decomposition and percent-decoding yields the
original recipient and exactly the parameter pairs that were supplied,
with their original values, in order. -/
theorem claim_uri_roundtrip (a : UrlArgs)
    (hr : pubkeyValid a.recipient.data = true) :
    ∃ u, generate_payment_url a = Except.ok u ∧
      parsePaymentUri u.data =
        some (a.recipient.data,
          (paymentParams a).map (fun p => (p.1.data, p.2.data))) :=
  buildUri_parse a hr

/-- Witness for C8 at arguments exercising percent-encoding (a space in
the message) and several optional fields. -/
theorem claim_uri_roundtrip_w :
    ∃ u, generate_payment_url
        ⟨"11111111111111111111111111111112", true, "0.1",
          some "So11111111111111111111111111111111111111112", none,
          some "Demo", some "hello world", none⟩ = Except.ok u ∧
      parsePaymentUri u.data =
        some (("11111111111111111111111111111112").data,
          (paymentParams
            ⟨"11111111111111111111111111111112", true, "0.1",
              some "So11111111111111111111111111111111111111112", none,
              some "Demo", some "hello world", none⟩).map
            (fun p => (p.1.data, p.2.data))) :=
  claim_uri_roundtrip _ (by decide)

/-- C9: get_account_balance never raises: a malformed address, a raising
RPC client and an absent response value all give None, while a reported
lamport balance is returned divided by the fixed divisor 1e9. -/
theorem claim_balance_optional (env : RpcCall (Option Nat)) (a : String) :
    (pubkeyValid a.data = false → get_account_balance env a = none) ∧
    (∀ msg, env = RpcCall.raised msg → get_account_balance env a = none) ∧
    (env = RpcCall.value none → get_account_balance env a = none) ∧
    (∀ lamports, pubkeyValid a.data = true → env = RpcCall.value (some lamports) →
      get_account_balance env a = some ((lamports : ℚ) / 10 ^ 9)) := by
  refine ⟨?_, ?_, ?_, ?_⟩
  · intro h
    simp [get_account_balance, h]
  · intro msg hmsg
    subst hmsg
    cases hv : pubkeyValid a.data <;> simp [get_account_balance, hv]
  · intro h
    subst h
    cases hv : pubkeyValid a.data <;> simp [get_account_balance, hv]
  · intro lamports hv henv
    subst henv
    simp [get_account_balance, hv]

/-- Witness for C9: five SOL worth of lamports on the system-program
address converts by the fixed divisor. -/
theorem claim_balance_optional_w :
    get_account_balance (RpcCall.value (some 5000000000))
        "11111111111111111111111111111111" =
      some ((5000000000 : ℚ) / 10 ^ 9) :=
  (claim_balance_optional (RpcCall.value (some 5000000000))
    "11111111111111111111111111111111").2.2.2 5000000000 (by decide) rfl

/-- C10: the query parameters of any produced URI always appear in the
fixed order amount, spl-token, reference, label, message, memo (their key
list is a sublist of that fixed key list), and the SPL token mint is
emitted under the hyphenated spl-token key. -/
theorem claim_param_order (a : UrlArgs)
    (hr : pubkeyValid a.recipient.data = true) :
    ∃ u, generate_payment_url a = Except.ok u ∧
      ∃ ps, parsePaymentUri u.data = some (a.recipient.data, ps) ∧
        List.Sublist (ps.map Prod.fst)
          [("amount").data, ("spl-token").data, ("reference").data,
            ("label").data, ("message").data, ("memo").data] ∧
        (optPresent a.spl_token = true →
          ∃ s, a.spl_token = some s ∧ (("spl-token").data, s.data) ∈ ps) := by
  obtain ⟨u, hu, hparse⟩ := buildUri_parse a hr
  refine ⟨u, hu, _, hparse, ?_, ?_⟩
  · have h1 : ((paymentParams a).map (fun p => (p.1.data, p.2.data))).map Prod.fst
        = ((paymentParams a).map Prod.fst).map String.data := by
      simp [List.map_map]
    rw [h1]
    have h2 := List.Sublist.map String.data (paymentParams_keys_sublist a)
    simpa using h2
  · intro hp
    obtain ⟨s, hv, hm⟩ := splToken_mem_paymentParams a hp
    exact ⟨s, hv, List.mem_map.mpr ⟨("spl-token", s), hm, rfl⟩⟩

/-- Witness for C10 with the SPL token field present. -/
theorem claim_param_order_w :
    ∃ u, generate_payment_url
        ⟨"11111111111111111111111111111111", false, "0",
          some "So11111111111111111111111111111111111111112", none, none,
          some "pay", none⟩ = Except.ok u ∧
      ∃ ps, parsePaymentUri u.data =
          some (("11111111111111111111111111111111").data, ps) ∧
        List.Sublist (ps.map Prod.fst)
          [("amount").data, ("spl-token").data, ("reference").data,
            ("label").data, ("message").data, ("memo").data] ∧
        (optPresent (some "So11111111111111111111111111111111111111112") = true →
          ∃ s, (some "So11111111111111111111111111111111111111112" :
              Option String) = some s ∧
            (("spl-token").data, s.data) ∈ ps) :=
  claim_param_order _ (by decide)

end SolanaPay
